import Mathlib

/-!
Verification development for the CroMedia MP4 cutter core (Go sources:
`core/remux.go`, the multi-track cutter, the demuxer/probe and the shared
track model).  Machine integers are modelled as `Nat`/`Int`; the 32-bit
and 16-bit narrowing conversions of Go (`uint32(x)`, `uint16(x)`) are
modelled exactly via `emod`.  64-bit signed arithmetic is modelled as
exact `Int` arithmetic except where a claim depends on wrap-around
(`int64(binary.BigEndian.Uint64 ...)` in the probe, which is wrapped).
Go `float64` time values are modelled as exact rationals; on every input
appearing in the claims the float computation is exact, so the models
agree.  Byte strings are `List Nat` (each element a byte value).
-/

namespace Cromedia

/-- Replace the element at index `i` (no-op when out of range).  Models an
in-place Go slice element assignment `l[i] = f(l[i])`. -/
def listModify (l : List α) (i : Nat) (f : α → α) : List α :=
  match l, i with
  | [], _ => []
  | x :: xs, 0 => f x :: xs
  | x :: xs, n+1 => x :: listModify xs n f

/-- Big-endian 4-byte encoding of a value already reduced below `2^32`
(`binary.BigEndian.PutUint32`). -/
def beBytes32 (v : Nat) : List Nat :=
  [v / 16777216 % 256, v / 65536 % 256, v / 256 % 256, v % 256]

/-- Go `binary.BigEndian.PutUint32` after a `uint32(_)` narrowing of a
nonnegative quantity: reduce mod `2^32`, then emit 4 big-endian bytes. -/
def writeU32 (v : Nat) : List Nat := beBytes32 (v % 4294967296)

/-- Go `uint32(x)` applied to an `int64` value: two's-complement
truncation, i.e. `x` reduced into `[0, 2^32)`. -/
def u32ofInt (x : Int) : Nat := (x.emod 4294967296).toNat

/-- Go `binary.BigEndian.PutUint16` after `uint16(_)` narrowing. -/
def writeU16 (v : Nat) : List Nat := [v % 65536 / 256, v % 256]

/-- Go `uint16(x)` applied to a signed value. -/
def u16ofInt (x : Int) : Nat := (x.emod 65536).toNat

/-- The raw bytes of a Go string (`[]byte(tag)`, used by `AtomWriter.WriteTag`). -/
def strBytes (s : String) : List Nat := s.data.map Char.toNat

/-- Go `string(bs)` on a byte slice: bytes become the characters of the string. -/
def strOfBytes (bs : List Nat) : String := String.mk (bs.map Char.ofNat)

/-- `copy(buf[4:8], atom.Type)` into a zeroed 4-byte region: at most 4
bytes of the type string, zero-padded on the right. -/
def tagBytes (s : String) : List Nat :=
  (s.data.map Char.toNat).take 4 ++ List.replicate (4 - min s.data.length 4) 0

/-- Go `binary.BigEndian.Uint32` over (the first) 4 bytes. -/
def beU32 (bs : List Nat) : Nat := (bs.take 4).foldl (fun a b => a * 256 + b) 0

/-- Go `binary.BigEndian.Uint64` over (the first) 8 bytes. -/
def beU64 (bs : List Nat) : Nat := (bs.take 8).foldl (fun a b => a * 256 + b) 0

/-- Go `int64(u)` for a `uint64` value: two's-complement reinterpretation. -/
def int64ofUint64 (n : Nat) : Int :=
  if n % 18446744073709551616 < 9223372036854775808 then
    (n % 18446744073709551616 : Int)
  else
    (n % 18446744073709551616 : Int) - 18446744073709551616

/-- `SimpleAtom` from `core/remux.go`: an output box with a type tag, raw
payload bytes and child boxes. -/
inductive SimpleAtom where
  | mk (type : String) (data : List Nat) (children : List SimpleAtom)

def SimpleAtom.type : SimpleAtom → String
  | .mk t _ _ => t

def SimpleAtom.data : SimpleAtom → List Nat
  | .mk _ d _ => d

def SimpleAtom.children : SimpleAtom → List SimpleAtom
  | .mk _ _ c => c

mutual

/-- `serializeAtom` from `core/remux.go`: 4-byte big-endian total size,
4-byte type tag, payload, then the serialized children. -/
def serializeAtom : SimpleAtom → List Nat
  | .mk t d cs =>
    let childBytes := serializeAtomList cs
    writeU32 (8 + d.length + childBytes.length) ++ tagBytes t ++ d ++ childBytes

/-- Concatenation of the serializations of a list of atoms (the loop over
`atom.Children` in `serializeAtom`). -/
def serializeAtomList : List SimpleAtom → List Nat
  | [] => []
  | a :: as => serializeAtom a ++ serializeAtomList as

end

mutual

/-- The abstract size of a `SimpleAtom`: 8 header bytes plus payload plus
children. -/
def atomSize : SimpleAtom → Nat
  | .mk _ d cs => 8 + d.length + atomSizeList cs

def atomSizeList : List SimpleAtom → Nat
  | [] => 0
  | a :: as => atomSize a + atomSizeList as

end

theorem length_writeU32 (v : Nat) : (writeU32 v).length = 4 := rfl

theorem length_writeU16 (v : Nat) : (writeU16 v).length = 2 := rfl

theorem length_tagBytes (s : String) : (tagBytes s).length = 4 := by
  simp [tagBytes, List.length_take]
  omega

mutual

theorem length_serializeAtom (a : SimpleAtom) :
    (serializeAtom a).length = atomSize a := by
  match a with
  | .mk t d cs =>
    simp [serializeAtom, atomSize, length_serializeAtomList cs, length_tagBytes,
      length_writeU32]
    omega

theorem length_serializeAtomList (l : List SimpleAtom) :
    (serializeAtomList l).length = atomSizeList l := by
  match l with
  | [] => rfl
  | a :: as =>
    simp [serializeAtomList, atomSizeList, length_serializeAtom a,
      length_serializeAtomList as]

end

/-! ## Shared data model (`core/track.go`, `Sample` from the demuxer) -/

/-- `Sample` from the demuxer source: per-sample metadata of a track.
Go zero value: all numeric fields 0, `IsKeyframe` false. -/
structure Sample where
  id : Int
  isKeyframe : Bool
  offset : Int
  size : Int
  time : Int
  duration : Int
deriving DecidableEq, Repr, Inhabited

/-- `EditListEntry` from `core/track.go`.  `segmentDuration` is a `uint64`
value (kept below `2^64` by parsers), `mediaTime` an `int64`, the media
rates `int16`. -/
structure EditListEntry where
  segmentDuration : Nat
  mediaTime : Int
  mediaRateInt : Int
  mediaRateFrac : Int
deriving DecidableEq, Repr, Inhabited

/-- The `TrackType` string constants of `core/track.go`. -/
def trackTypeVideo : String := "vide"

def trackTypeAudio : String := "soun"

/-- `Track` from `core/track.go`.  `mediaHeader` is an `Option` because Go
distinguishes a nil byte slice from an empty one (`if t.MediaHeader != nil`). -/
structure Track where
  id : Int
  type : String
  timescale : Nat
  duration : Nat
  samples : List Sample
  stsd : List Nat
  hdlr : List Nat
  mediaHeader : Option (List Nat)
  tkhd : List Nat
  width : Nat
  height : Nat
  volume : Nat
  ctsOffsets : List Int
  codecTag : String
  editList : List EditListEntry
  mediaTimeOffset : Int
deriving DecidableEq, Repr, Inhabited

/-- `InterleavedSample` from `core/track.go`; the `float64` presentation
time is modelled as an exact rational. -/
structure InterleavedSample where
  trackIndex : Nat
  sampleIndex : Nat
  timeSeconds : ℚ
  sample : Sample
deriving DecidableEq, Repr, Inhabited

/-- `CutReport` from `core/track.go`; the `float64` fields are modelled as
exact rationals. -/
structure CutReport where
  trackType : String
  requestedStart : ℚ
  actualStart : ℚ
  requestedEnd : ℚ
  actualEnd : ℚ
  deltaStartMs : ℚ
  deltaEndMs : ℚ
  samplesIncluded : Nat
deriving DecidableEq, Repr, Inhabited

/-! ## Remuxer (`core/remux.go`) -/

/-- `convertTime` from `core/remux.go`; Go truncated integer division.
The `int64 → uint64 → int64` round trip at the call sites is the
identity, and the 64-bit product is modelled as exact. -/
def convertTime (val : Int) (fromScale toScale : Nat) : Int :=
  if fromScale = 0 then 0 else (val * toScale).tdiv fromScale

/-- `identityMatrix` from `core/remux.go` (36 bytes). -/
def identityMatrix : List Nat :=
  [0, 1, 0, 0, 0, 0, 0, 0, 0, 0, 0, 0,
   0, 0, 0, 0, 0, 1, 0, 0, 0, 0, 0, 0,
   0, 0, 0, 0, 0, 0, 0, 0, 64, 0, 0, 0]

/-- The total media duration of a track: `totalDur` accumulated in
`makeTrakAtom` and `makeMoovMultiTrackWithOffsets`. -/
def totalDurOf (t : Track) : Int := (t.samples.map (·.duration)).sum

/-- The `co64Data` buffer of `makeTrakAtom`: version/flags, entry count,
then per sample the high and low 32 bits of its offset (`off >> 32` is
Go's arithmetic shift, i.e. floor division). -/
def co64Data (numSamples : Nat) (sampleOffsets : Nat → Int) : List Nat :=
  writeU32 0 ++ writeU32 numSamples ++
    ((List.range numSamples).map fun i =>
      writeU32 (u32ofInt ((sampleOffsets i).fdiv 4294967296)) ++
      writeU32 (u32ofInt (sampleOffsets i))).flatten

/-- The `stcoData` buffer of `makeTrakAtom`: version/flags, entry count,
then per sample its offset narrowed to 32 bits. -/
def stcoData (numSamples : Nat) (sampleOffsets : Nat → Int) : List Nat :=
  writeU32 0 ++ writeU32 numSamples ++
    ((List.range numSamples).map fun i => writeU32 (u32ofInt (sampleOffsets i))).flatten

/-- `makeTrakAtom` from `core/remux.go`.  `sampleOffsets` models the Go
`map[int]int64` (lookup of a missing key yields 0, as in Go). -/
def makeTrakAtom (t : Track) (trackID : Nat) (sampleOffsets : Nat → Int)
    (useCo64 : Bool) : SimpleAtom :=
  let numSamples := t.samples.length
  -- 1. stts: one (count=1, duration) entry per sample
  let sttsData := writeU32 0 ++ writeU32 numSamples ++
    (t.samples.map fun s => writeU32 1 ++ writeU32 (u32ofInt s.duration)).flatten
  -- 2. stsz: default size 0, then explicit per-sample sizes
  let stszData := writeU32 0 ++ writeU32 0 ++ writeU32 numSamples ++
    (t.samples.map fun s => writeU32 (u32ofInt s.size)).flatten
  -- 3. stco / co64 chunk offsets from the interleaved layout
  let chunkOffsetAtom : SimpleAtom :=
    if useCo64 then .mk "co64" (co64Data numSamples sampleOffsets) []
    else .mk "stco" (stcoData numSamples sampleOffsets) []
  -- 4. stsc: single (1,1,1) entry
  let stscData := writeU32 0 ++ writeU32 1 ++ writeU32 1 ++ writeU32 1 ++ writeU32 1
  -- 5. stss (video only): 1-based indices of keyframes
  let stssAtoms : List SimpleAtom :=
    if t.type = trackTypeVideo then
      let keyframes := (t.samples.enum.filter fun p => p.2.isKeyframe).map (·.1 + 1)
      [.mk "stss"
        (writeU32 0 ++ writeU32 keyframes.length ++
          (keyframes.map fun kf => writeU32 kf).flatten) []]
    else []
  -- 6. ctts when the track carries composition offsets
  let cttsAtoms : List SimpleAtom :=
    if t.ctsOffsets.length > 0 then
      [.mk "ctts"
        (writeU32 0 ++ writeU32 t.ctsOffsets.length ++
          (t.ctsOffsets.map fun off => writeU32 1 ++ writeU32 (u32ofInt off)).flatten) []]
    else []
  let stblChildren :=
    [SimpleAtom.mk "stsd" t.stsd [], .mk "stts" sttsData [], .mk "stsz" stszData [],
     chunkOffsetAtom, .mk "stsc" stscData []] ++ stssAtoms ++ cttsAtoms
  let stbl := SimpleAtom.mk "stbl" [] stblChildren
  let minfChildren :=
    (match t.mediaHeader with
     | some mh =>
       [SimpleAtom.mk (if t.type = trackTypeAudio then "smhd" else "vmhd") mh []]
     | none => []) ++
    [SimpleAtom.mk "dinf" []
      [.mk "dref" [0, 0, 0, 0, 0, 0, 0, 1, 0, 0, 0, 12, 117, 114, 108, 32, 0, 0, 0, 1] []],
     stbl]
  let minf := SimpleAtom.mk "minf" [] minfChildren
  let totalDur := totalDurOf t
  let mdhdData := writeU32 0 ++ writeU32 0 ++ writeU32 0 ++ writeU32 t.timescale ++
    writeU32 (u32ofInt totalDur) ++ writeU16 21956 ++ writeU16 0
  let mdia := SimpleAtom.mk "mdia" []
    [.mk "mdhd" mdhdData [], .mk "hdlr" t.hdlr [], minf]
  let durMvhd := convertTime totalDur t.timescale 1000
  let vol : Nat := if t.type = trackTypeAudio then 256 else 0
  let tkhdData := writeU32 3 ++ writeU32 0 ++ writeU32 0 ++ writeU32 trackID ++
    writeU32 0 ++ writeU32 (u32ofInt durMvhd) ++ writeU32 0 ++ writeU32 0 ++
    writeU16 0 ++ writeU16 0 ++ writeU16 vol ++ writeU16 0 ++ identityMatrix ++
    writeU32 t.width ++ writeU32 t.height
  let edtsAtoms : List SimpleAtom :=
    if t.editList.length > 0 then
      let elstData := writeU32 0 ++ writeU32 t.editList.length ++
        (t.editList.map fun e =>
          writeU32 e.segmentDuration ++ writeU32 (u32ofInt e.mediaTime) ++
          writeU16 (u16ofInt e.mediaRateInt) ++ writeU16 (u16ofInt e.mediaRateFrac)).flatten
      [SimpleAtom.mk "edts" [] [.mk "elst" elstData []]]
    else []
  SimpleAtom.mk "trak" [] ([SimpleAtom.mk "tkhd" tkhdData []] ++ edtsAtoms ++ [mdia])

/-- The per-track offset maps built at the top of
`makeMoovMultiTrackWithOffsets`: assignments are applied in interleaved
order, later assignments overwrite earlier ones, and a missing key reads
as 0 (Go map semantics). -/
def buildTrackOffsets (inter : List InterleavedSample) (offsets : List Int) :
    Nat → Nat → Int :=
  (inter.zip offsets).foldl
    (fun f p => fun ti si =>
      if ti = p.1.trackIndex ∧ si = p.1.sampleIndex then p.2 else f ti si)
    (fun _ _ => 0)

/-- `makeMoovMultiTrackWithOffsets` from `core/remux.go`. -/
def makeMoovMultiTrackWithOffsets (tracks : List Track)
    (inter : List InterleavedSample) (offsets : List Int) (useCo64 : Bool) :
    SimpleAtom :=
  let trackOffsets := buildTrackOffsets inter offsets
  let traks := tracks.enum.map fun p => makeTrakAtom p.2 (p.1 + 1) (trackOffsets p.1) useCo64
  let mvhdTimescale : Nat := 1000
  let maxDuration := tracks.foldl
    (fun m t =>
      let dur := convertTime (totalDurOf t) t.timescale mvhdTimescale
      if dur > m then dur else m) 0
  let mvhdData := writeU32 0 ++ writeU32 0 ++ writeU32 0 ++ writeU32 mvhdTimescale ++
    writeU32 (u32ofInt maxDuration) ++ writeU32 65536 ++ writeU16 256 ++
    List.replicate 10 0 ++ identityMatrix ++ List.replicate 24 0 ++
    writeU32 (tracks.length + 1)
  SimpleAtom.mk "moov" [] (SimpleAtom.mk "mvhd" mvhdData [] :: traks)

/-- `makeMoovMultiTrack` from `core/remux.go`: the placeholder `moov`
whose chunk offsets all equal `baseOffset` (0 in the two-pass scheme). -/
def makeMoovMultiTrack (tracks : List Track) (inter : List InterleavedSample)
    (baseOffset : Int) (useCo64 : Bool) : SimpleAtom :=
  makeMoovMultiTrackWithOffsets tracks inter
    (List.replicate inter.length baseOffset) useCo64

/-- The comparison under Go's `sort.SliceStable` call in
`buildInterleavedOrder`: `a` may precede `b` iff `!less(b, a)`, i.e.
earlier time first, ties broken by track index. -/
def interLE (a b : InterleavedSample) : Bool :=
  a.timeSeconds < b.timeSeconds ∨
    (a.timeSeconds = b.timeSeconds ∧ a.trackIndex ≤ b.trackIndex)

/-- Stable insertion into a sorted list: the new element goes before the
first element it may precede.  Inserting the earlier-positioned element
last keeps equal elements in input order. -/
def stableInsert (x : InterleavedSample) : List InterleavedSample → List InterleavedSample
  | [] => [x]
  | y :: ys => if interLE x y then x :: y :: ys else y :: stableInsert x ys

/-- Stable sort by `interLE`; a stable sort's output is uniquely
determined by the comparison, so this models `sort.SliceStable` exactly. -/
def stableSort : List InterleavedSample → List InterleavedSample
  | [] => []
  | x :: xs => stableInsert x (stableSort xs)

/-- `buildInterleavedOrder` from `core/remux.go`: flatten all samples of
all tracks with their presentation time in seconds, then stable-sort by
time (ties: lower track index first). -/
def buildInterleavedOrder (tracks : List Track) : List InterleavedSample :=
  let all := tracks.enum.flatMap fun p =>
    let ts : Int := if p.2.timescale = 0 then 1000 else p.2.timescale
    p.2.samples.enum.map fun q =>
      InterleavedSample.mk p.1 q.1 (Rat.divInt q.2.time ts) q.2
  stableSort all

/-- The per-interleaved-sample absolute offsets of step 7 of
`WriteMultiTrackFile`: a running position starting at `mdatStartPos`,
advanced by each sample's size. -/
def computeOffsets (inter : List InterleavedSample) (currentPos : Int) : List Int :=
  match inter with
  | [] => []
  | is :: rest => currentPos :: computeOffsets rest (currentPos + is.sample.size)

/-- `mdatDataSize` of `WriteMultiTrackFile`: total payload size over the
interleaved samples. -/
def mdatDataSize (inter : List InterleavedSample) : Int :=
  (inter.map (·.sample.size)).sum

/-- `useCo64` decision of `WriteMultiTrackFile` (2 GB threshold). -/
def useCo64Of (inter : List InterleavedSample) : Bool :=
  mdatDataSize inter > 2147483648

/-- `mdatStartPos` of `WriteMultiTrackFile`: ftyp (24 bytes) + serialized
placeholder moov + 8-byte mdat header. -/
def mdatStartPos (tracks : List Track) (useCo64 : Bool) : Int :=
  let inter := buildInterleavedOrder tracks
  24 + ((serializeAtom (makeMoovMultiTrack tracks inter 0 useCo64)).length : Int) + 8

/-! ## Two-pass size stability (claim C1) -/

theorem atomSizeList_append (l1 l2 : List SimpleAtom) :
    atomSizeList (l1 ++ l2) = atomSizeList l1 + atomSizeList l2 := by
  induction l1 with
  | nil => simp [atomSizeList]
  | cons a as ih => simp [atomSizeList, ih]; omega

theorem length_flatten_of_map (l : List α) (f : α → List Nat) (c : Nat)
    (h : ∀ x, (f x).length = c) : ((l.map f).flatten).length = c * l.length := by
  induction l with
  | nil => simp
  | cons x xs ih => simp [ih, h, Nat.mul_succ]; omega

theorem length_co64Data (n : Nat) (f : Nat → Int) :
    (co64Data n f).length = 8 + 8 * n := by
  have h := length_flatten_of_map (List.range n)
    (fun i => writeU32 (u32ofInt ((f i).fdiv 4294967296)) ++ writeU32 (u32ofInt (f i))) 8
    (fun x => rfl)
  simp [co64Data, h, length_writeU32]
  omega

theorem length_stcoData (n : Nat) (f : Nat → Int) :
    (stcoData n f).length = 8 + 4 * n := by
  have h := length_flatten_of_map (List.range n)
    (fun i => writeU32 (u32ofInt (f i))) 4 (fun x => rfl)
  simp [stcoData, h, length_writeU32]
  omega

/-- The serialized size of a `trak` atom does not depend on the chunk
offset values: every offset is written with a fixed byte width. -/
theorem atomSize_makeTrakAtom_indep (t : Track) (trackID : Nat) (b : Bool)
    (f g : Nat → Int) :
    atomSize (makeTrakAtom t trackID f b) = atomSize (makeTrakAtom t trackID g b) := by
  cases b <;>
    simp [makeTrakAtom, atomSize, atomSizeList, atomSizeList_append,
      length_co64Data, length_stcoData]

theorem atomSizeList_map_congr (l : List α) (f g : α → SimpleAtom)
    (h : ∀ x ∈ l, atomSize (f x) = atomSize (g x)) :
    atomSizeList (l.map f) = atomSizeList (l.map g) := by
  induction l with
  | nil => rfl
  | cons x xs ih =>
    simp [atomSizeList, h x (by simp)]
    exact ih (fun y hy => h y (by simp [hy]))

/-- The serialized size of the whole `moov` does not depend on the offset
list passed to `makeMoovMultiTrackWithOffsets`. -/
theorem atomSize_moov_indep (tracks : List Track) (inter : List InterleavedSample)
    (offs1 offs2 : List Int) (b : Bool) :
    atomSize (makeMoovMultiTrackWithOffsets tracks inter offs1 b) =
      atomSize (makeMoovMultiTrackWithOffsets tracks inter offs2 b) := by
  simp only [makeMoovMultiTrackWithOffsets, atomSize, atomSizeList]
  have h := atomSizeList_map_congr tracks.enum
    (fun p => makeTrakAtom p.2 (p.1 + 1) (buildTrackOffsets inter offs1 p.1) b)
    (fun p => makeTrakAtom p.2 (p.1 + 1) (buildTrackOffsets inter offs2 p.1) b)
    (fun p _ => atomSize_makeTrakAtom_indep p.2 (p.1 + 1) b _ _)
  omega

/-- C1 (confirmed).  Two-pass size stability: for every track list, the
placeholder `moov` built with all chunk offsets 0 and the real `moov`
built with the computed absolute offsets (same tracks, same interleaved
order, same co64/stco choice) serialize to byte strings of identical
length. -/
theorem two_pass_size_stability (tracks : List Track) (useCo64 : Bool) :
    (serializeAtom (makeMoovMultiTrackWithOffsets tracks (buildInterleavedOrder tracks)
        (computeOffsets (buildInterleavedOrder tracks) (mdatStartPos tracks useCo64))
        useCo64)).length =
      (serializeAtom (makeMoovMultiTrack tracks (buildInterleavedOrder tracks)
        0 useCo64)).length := by
  rw [length_serializeAtom, length_serializeAtom, makeMoovMultiTrack]
  exact atomSize_moov_indep tracks (buildInterleavedOrder tracks) _ _ useCo64

/-! ## The `WriteMultiTrackFile` pipeline (claims C2, C7, C9) -/

/-- The fixed 24-byte `ftyp` box written at step 1 of `WriteMultiTrackFile`. -/
def ftypBytes : List Nat :=
  writeU32 24 ++ strBytes "ftyp" ++ strBytes "isom" ++ writeU32 512 ++
    strBytes "isom" ++ strBytes "mp41"

/-- The `useCo64` decision made by `WriteMultiTrackFile` for a track list. -/
def remuxUseCo64 (tracks : List Track) : Bool :=
  useCo64Of (buildInterleavedOrder tracks)

/-- `len(dummyBytes)` of `WriteMultiTrackFile`: the serialized length of
the placeholder `moov` (all offsets 0). -/
def placeholderMoovLength (tracks : List Track) : Nat :=
  (serializeAtom (makeMoovMultiTrack tracks (buildInterleavedOrder tracks) 0
    (remuxUseCo64 tracks))).length

/-- The `offsets` array computed at step 7 of `WriteMultiTrackFile`. -/
def remuxOffsets (tracks : List Track) : List Int :=
  computeOffsets (buildInterleavedOrder tracks)
    (mdatStartPos tracks (remuxUseCo64 tracks))

/-- The real `moov` bytes of step 8 of `WriteMultiTrackFile`. -/
def realMoovBytes (tracks : List Track) : List Nat :=
  serializeAtom (makeMoovMultiTrackWithOffsets tracks (buildInterleavedOrder tracks)
    (remuxOffsets tracks) (remuxUseCo64 tracks))

/-- The 8-byte `mdat` header of step 10: `uint32(mdatDataSize + 8)` then
the tag — always a 32-bit size field, regardless of `useCo64`. -/
def mdatHeaderBytes (sz : Int) : List Nat :=
  writeU32 (u32ofInt (sz + 8)) ++ strBytes "mdat"

/-- One sample copy of step 11: `size` bytes of the input starting at the
sample's source offset (`io.LimitReader` with a nonpositive limit copies
nothing). -/
def readRange (input : Int → Nat) (off size : Int) : List Nat :=
  (List.range size.toNat).map fun k => input (off + k)

/-- The interleaved `mdat` body of step 11. -/
def mdatBody (input : Int → Nat) (inter : List InterleavedSample) : List Nat :=
  (inter.map fun is => readRange input is.sample.offset is.sample.size).flatten

/-- The byte string produced by a successful `WriteMultiTrackFile` run,
with the source file modelled as a byte oracle. -/
def writeMultiTrackBytes (input : Int → Nat) (tracks : List Track) : List Nat :=
  ftypBytes ++ realMoovBytes tracks ++
    mdatHeaderBytes (mdatDataSize (buildInterleavedOrder tracks)) ++
    mdatBody input (buildInterleavedOrder tracks)

/-- File-system operations performed by `WriteMultiTrackFile`, for the
error-path analysis: the function only ever creates, writes, seeks,
copies and closes — the model records which operations occur. -/
inductive FSOp where
  | create (path : String)
  | writeBytes (bs : List Nat)
  | seekIn (off : Int)
  | copySample (off size : Int)
  | removeFile (path : String)
  | closeOut
deriving DecidableEq, Repr

/-- The copy loop of step 11.  `failAt = some i` injects an I/O failure
(seek or copy error) at the `i`-th interleaved sample, upon which the
function returns the error immediately. -/
def copyLoopTrace (inter : List InterleavedSample) (failAt : Option Nat)
    (i : Nat) : List FSOp × Option String :=
  match inter with
  | [] => ([], none)
  | is :: rest =>
    if failAt = some i then
      ([FSOp.seekIn is.sample.offset], some "copy error")
    else
      let r := copyLoopTrace rest failAt (i + 1)
      (FSOp.seekIn is.sample.offset ::
        FSOp.copySample is.sample.offset is.sample.size :: r.1, r.2)

/-- The operation trace of `WriteMultiTrackFile` on `tracks` writing to
`outputFile`: create the output, write ftyp, real moov and the mdat
header, run the copy loop, and close the output on every exit path
(`defer out.Close()`).  The second component is the returned error. -/
def writeMultiTrackTrace (outputFile : String) (tracks : List Track)
    (failAt : Option Nat) : List FSOp × Option String :=
  let inter := buildInterleavedOrder tracks
  let r := copyLoopTrace inter failAt 0
  (FSOp.create outputFile ::
    FSOp.writeBytes ftypBytes ::
    FSOp.writeBytes (realMoovBytes tracks) ::
    FSOp.writeBytes (mdatHeaderBytes (mdatDataSize inter)) ::
    (r.1 ++ [FSOp.closeOut]), r.2)

/-- Whether a trace ever removes a file. -/
def tracesRemoval (ops : List FSOp) : Bool :=
  ops.any fun op => match op with | .removeFile _ => true | _ => false

/-! ## Claim C2: output offset computation -/

theorem computeOffsets_get (l : List InterleavedSample) (start : Int) (i : Nat)
    (h : i < l.length) :
    (computeOffsets l start).get? i =
      some (start + ((l.take i).map (fun is => is.sample.size)).sum) := by
  induction l generalizing start i with
  | nil => simp at h
  | cons x xs ih =>
    match i with
    | 0 => simp [computeOffsets]
    | n + 1 =>
      simp only [computeOffsets, List.get?_cons_succ, List.take_succ_cons,
        List.map_cons, List.sum_cons]
      rw [ih (start + x.sample.size) n (by simpa using h)]
      ring_nf

/-- C2 (confirmed).  With `M` the serialized placeholder-moov length, the
`i`-th interleaved sample's recorded absolute offset equals
`24 + M + 8` plus the sum of the sizes of all interleaved samples before
it. -/
theorem output_offset_computation (tracks : List Track) (i : Nat)
    (h : i < (buildInterleavedOrder tracks).length) :
    (remuxOffsets tracks).get? i =
      some (24 + (placeholderMoovLength tracks : Int) + 8 +
        (((buildInterleavedOrder tracks).take i).map (fun is => is.sample.size)).sum) := by
  rw [remuxOffsets, computeOffsets_get _ _ i h]
  simp [mdatStartPos, placeholderMoovLength, remuxUseCo64]

/-- The two-sample track of scenario S4: sizes 100 and 200, source
offsets 10000 and 20000. -/
def w2Track : Track :=
  Track.mk 1 trackTypeVideo 600 1024
    [Sample.mk 1 true 10000 100 0 512, Sample.mk 2 true 20000 200 512 512]
    [] [] none [] 0 0 0 [] "" [] 0

/-- Witness for C2 at scenario S4: the second interleaved sample's offset
is `24 + M + 8` plus the first sample's size. -/
theorem output_offset_computation_witness :
    1 < (buildInterleavedOrder [w2Track]).length ∧
    (remuxOffsets [w2Track]).get? 1 =
      some (24 + (placeholderMoovLength [w2Track] : Int) + 8 +
        (((buildInterleavedOrder [w2Track]).take 1).map (fun is => is.sample.size)).sum) :=
  ⟨by decide, output_offset_computation [w2Track] 1 (by decide)⟩

/-! ## Claim C9: 32-bit mdat size field -/

/-- C9 (confirmed).  The `mdat` box size is always written as a 32-bit
field equal to `(total payload bytes + 8)` reduced modulo `2^32` — the
header is exactly `uint32(mdatDataSize+8)` followed by the 4-byte tag,
with no 64-bit extension, independent of the co64/stco choice; and for a
total payload of at least `2^32 − 8` the written field wraps (it differs
from the true value). -/
theorem mdat_size_field_32bit (tracks : List Track) (input : Int → Nat) :
    writeMultiTrackBytes input tracks =
      ftypBytes ++ realMoovBytes tracks ++
        (writeU32 (u32ofInt (mdatDataSize (buildInterleavedOrder tracks) + 8)) ++
          strBytes "mdat") ++
        mdatBody input (buildInterleavedOrder tracks) ∧
    (writeU32 (u32ofInt (mdatDataSize (buildInterleavedOrder tracks) + 8)) ++
      strBytes "mdat").length = 8 ∧
    (mdatDataSize (buildInterleavedOrder tracks) ≥ 4294967288 →
      (u32ofInt (mdatDataSize (buildInterleavedOrder tracks) + 8) : Int) ≠
        mdatDataSize (buildInterleavedOrder tracks) + 8) := by
  refine ⟨rfl, rfl, fun hge => ?_⟩
  have h1 : (0 : Int) ≤ (mdatDataSize (buildInterleavedOrder tracks) + 8).emod 4294967296 :=
    Int.emod_nonneg _ (by omega)
  have h2 : (mdatDataSize (buildInterleavedOrder tracks) + 8).emod 4294967296 < 4294967296 :=
    Int.emod_lt_of_pos _ (by omega)
  have h3 : (u32ofInt (mdatDataSize (buildInterleavedOrder tracks) + 8) : Int) =
      (mdatDataSize (buildInterleavedOrder tracks) + 8).emod 4294967296 := by
    simp [u32ofInt, Int.toNat_of_nonneg h1]
  omega

/-- A track whose single sample already carries `2^32` payload bytes
(forcing both the co64 table and mdat size wrap-around). -/
def bigTrack : Track :=
  Track.mk 1 trackTypeVideo 600 512 [Sample.mk 1 true 4096 4294967296 0 512]
    [] [] none [] 0 0 0 [] "" [] 0

/-- Witness for C9: on `bigTrack` the total payload is `2^32 ≥ 2^32 − 8`,
and the written 32-bit mdat size field differs from the true size. -/
theorem mdat_size_field_32bit_witness :
    (u32ofInt (mdatDataSize (buildInterleavedOrder [bigTrack]) + 8) : Int) ≠
      mdatDataSize (buildInterleavedOrder [bigTrack]) + 8 :=
  (mdat_size_field_32bit [bigTrack] (fun _ => 0)).2.2 (by decide)

/-! ## Claim C7: behaviour of the remuxer on copy-phase errors -/

theorem copyLoopTrace_no_removal (inter : List InterleavedSample)
    (failAt : Option Nat) (i : Nat) :
    tracesRemoval (copyLoopTrace inter failAt i).1 = false := by
  induction inter generalizing i with
  | nil => rfl
  | cons is rest ih =>
    simp only [copyLoopTrace]
    by_cases h : failAt = some i
    · simp [h, tracesRemoval]
    · simp only [if_neg h]
      simp [tracesRemoval] at ih ⊢
      exact ih (i + 1)

/-- Counterexample to C7 as stated: on a concrete track list, with the
copy of the very first interleaved sample failing, `WriteMultiTrackFile`
returns an error, yet its operation trace created the output file and
never removed it — so an output file does remain at the output path. -/
theorem remux_no_cleanup_counterexample :
    (writeMultiTrackTrace "out.mp4" [w2Track] (some 0)).2 = some "copy error" ∧
    (writeMultiTrackTrace "out.mp4" [w2Track] (some 0)).1.contains
      (FSOp.create "out.mp4") = true ∧
    tracesRemoval (writeMultiTrackTrace "out.mp4" [w2Track] (some 0)).1 = false := by
  refine ⟨rfl, by decide, ?_⟩
  have h := copyLoopTrace_no_removal (buildInterleavedOrder [w2Track]) (some 0) 0
  simp [writeMultiTrackTrace, tracesRemoval] at h ⊢
  exact h

/-- C7 (corrected).  `WriteMultiTrackFile` never removes its output: on
every run — in particular on every failing one — the trace contains the
creation of the output file and no removal operation, so the partially
written file remains at the output path when an error is returned. -/
theorem remux_error_leaves_output (outputFile : String) (tracks : List Track)
    (failAt : Option Nat) :
    (writeMultiTrackTrace outputFile tracks failAt).1.contains
      (FSOp.create outputFile) = true ∧
    tracesRemoval (writeMultiTrackTrace outputFile tracks failAt).1 = false := by
  constructor
  · simp [writeMultiTrackTrace]
  · have h := copyLoopTrace_no_removal (buildInterleavedOrder tracks) failAt 0
    simp [writeMultiTrackTrace, tracesRemoval] at h ⊢
    exact h

/-! ## Multi-track cutter (`CutWithReport`, claims C3 and C4) -/

/-- Go `int64(x)` applied to a nonnegative-denominator rational standing
for a `float64`: truncation toward zero. -/
def truncRat (q : ℚ) : Int := q.num.tdiv q.den

/-- The per-track `timescale` of `CutWithReport` (1000 substituted for a
zero timescale). -/
def cutTimescale (t : Track) : Int :=
  if t.timescale = 0 then 1000 else t.timescale

/-- `int64(time.Seconds() * float64(timescale))` of `CutWithReport`,
with the float arithmetic modelled as exact rational arithmetic. -/
def cutUnits (t : Track) (sec : ℚ) : Int :=
  truncRat (sec * (cutTimescale t : ℚ))

/-- The cut-point scan of `CutWithReport` (the `for i, s := range
track.Samples` loop): `i` is the index of the head of the remaining list,
the accumulator is `startIdx` (initially −1).  Returns `(startIdx,
endIdx)`, each −1 when never assigned; the loop breaks at the first
sample with `Time >= endUnits`, after the start-side update of that same
iteration. -/
def cutScan (isVideo : Bool) (startUnits endUnits : Int) :
    List Sample → Nat → Int → Int × Int
  | [], _, sIdx => (sIdx, -1)
  | s :: rest, i, sIdx =>
    let sIdx2 := if s.time ≤ startUnits then
        (if isVideo then (if s.isKeyframe then (i : Int) else sIdx) else (i : Int))
      else sIdx
    if s.time ≥ endUnits then (sIdx2, (i : Int))
    else cutScan isVideo startUnits endUnits rest (i + 1) sIdx2

/-- The scan of `CutWithReport` applied to one track: Go's
`track.Type == TrackTypeVideo` string comparison selects the video rule. -/
def cutScanOf (t : Track) (startSec endSec : ℚ) : Int × Int :=
  cutScan (t.type == trackTypeVideo) (cutUnits t startSec) (cutUnits t endSec)
    t.samples 0 (-1)

/-- `startIdx` after the fallback `if startIdx == -1 { startIdx = 0 }`. -/
def cutStartIdx (t : Track) (startSec endSec : ℚ) : Int :=
  if (cutScanOf t startSec endSec).1 = -1 then 0 else (cutScanOf t startSec endSec).1

/-- `endIdx` after the fallback `if endIdx == -1 { endIdx = len-1 }`. -/
def cutEndIdx (t : Track) (startSec endSec : ℚ) : Int :=
  if (cutScanOf t startSec endSec).2 = -1 then (t.samples.length : Int) - 1
  else (cutScanOf t startSec endSec).2

/-- One iteration of the track loop of `CutWithReport`: `none` models the
`continue` on an empty slice (the track is dropped). -/
def cutTrack (t : Track) (startSec endSec : ℚ) : Option (Track × CutReport) :=
  let timescale := cutTimescale t
  let startIdx := cutStartIdx t startSec endSec
  let endIdx := cutEndIdx t startSec endSec
  if startIdx > endIdx then none
  else
    let si := startIdx.toNat
    let ei := endIdx.toNat
    let cutSamples := (t.samples.drop si).take (ei + 1 - si)
    let actualStartSec := Rat.divInt (t.samples.getD si default).time timescale
    let actualEndSec := Rat.divInt (t.samples.getD ei default).time timescale
    let deltaStartMs := (actualStartSec - startSec) * 1000
    let deltaEndMs := (actualEndSec - endSec) * 1000
    let report := CutReport.mk t.type startSec actualStartSec endSec actualEndSec
      deltaStartMs deltaEndMs cutSamples.length
    let ctsCut :=
      if t.ctsOffsets.length > 0 ∧ (endIdx : Int) < (t.ctsOffsets.length : Int) then
        (t.ctsOffsets.drop si).take (ei + 1 - si)
      else if t.ctsOffsets.length > 0 then
        let e := min (ei + 1) t.ctsOffsets.length
        if si < e then (t.ctsOffsets.drop si).take (e - si) else t.ctsOffsets
      else t.ctsOffsets
    some ({ t with samples := cutSamples, ctsOffsets := ctsCut }, report)

/-- `CutWithReport` over all tracks: dropped tracks contribute neither a
narrowed track nor a report. -/
def cutWithReport (tracks : List Track) (startSec endSec : ℚ) :
    List Track × List CutReport :=
  match tracks with
  | [] => ([], [])
  | t :: rest =>
    let r := cutWithReport rest startSec endSec
    match cutTrack t startSec endSec with
    | some p => (p.1 :: r.1, p.2 :: r.2)
    | none => r

/-- The video track of scenario S2: timescale 600, a sample every 40
ticks, keyframes at 1-based sample indices 1, 61 and 121. -/
def s2Samples : List Sample :=
  (List.range 126).map fun k =>
    Sample.mk ((k : Int) + 1) (k % 60 = 0) 0 0 (40 * (k : Int)) 40

def s2Track : Track :=
  Track.mk 1 trackTypeVideo 600 5040 s2Samples [] [] none [] 0 0 0 [] "" [] 0

unseal Rat.mul Rat.sub in
/-- Counterexample to C3 as stated.  On the S2 input the cutter selects
the sample with id 1 (decode time 0) as the start — the latest keyframe
with decode time at most 1500 — and reports `delta_start_ms = −2500`,
not start index 61 (decode time 2400) with `delta_start_ms = 1500`. -/
theorem s2_keyframe_snap_counterexample :
    ((cutWithReport [s2Track] (Rat.divInt 5 2) 5).1.map fun t =>
      (t.samples.head?.map fun s => (s.id, s.time))) = [some (1, 0)] ∧
    ((cutWithReport [s2Track] (Rat.divInt 5 2) 5).2.map (·.deltaStartMs)) = [-2500] ∧
    some ((1 : Int), (0 : Int)) ≠ some ((61 : Int), (2400 : Int)) ∧
    (-2500 : ℚ) ≠ 1500 := by
  constructor
  · decide
  · exact ⟨by decide, by decide, by decide⟩

unseal Rat.mul Rat.sub in
/-- C3 (corrected).  Scenario S2 as the code computes it: start_units =
1500 and end_units = 3000; the cut selects start sample id 1 (decode
time 0, i.e. 0.0 s — the latest keyframe at or before 2.5 s) and end
sample id 76 (decode time 3000 = 5.0 s), and reports `delta_start_ms =
−2500.0` and `delta_end_ms = 0.0` over the 76 selected samples. -/
theorem s2_keyframe_snap_actual :
    cutUnits s2Track (Rat.divInt 5 2) = 1500 ∧
    cutUnits s2Track 5 = 3000 ∧
    (cutWithReport [s2Track] (Rat.divInt 5 2) 5).2 =
      [CutReport.mk trackTypeVideo (Rat.divInt 5 2) 0 5 5 (-2500) 0 76] ∧
    ((cutWithReport [s2Track] (Rat.divInt 5 2) 5).1.map fun t =>
      (t.samples.head?.map fun s => (s.id, s.time),
       t.samples.getLast?.map fun s => (s.id, s.time))) =
      [(some (1, 0), some (76, 3000))] := by
  exact ⟨by decide, by decide, by decide, by decide⟩

theorem head?_take_pos (l : List α) (n : Nat) (h : 0 < n) :
    (l.take n).head? = l.head? := by
  cases l with
  | nil => simp
  | cons x xs =>
    match n, h with
    | m + 1, _ => simp

theorem head?_drop_eq_get? (l : List α) (n : Nat) :
    (l.drop n).head? = l.get? n := by
  induction l generalizing n with
  | nil => simp
  | cons x xs ih =>
    match n with
    | 0 => simp
    | m + 1 => simp [ih m]

/-- On a video track, whenever the start-snap scan of `CutWithReport`
returns an index other than the −1 sentinel, that index points at a
keyframe of the scanned list (the scan only assigns `startIdx` at
keyframes). -/
theorem cutScan_start_video (su eu : Int) (l : List Sample) :
    ∀ (i : Nat) (acc : Int) (l0 : List Sample),
    (∀ m : Nat, m < l.length → l0.get? (i + m) = l.get? m) →
    (acc ≠ -1 → ∃ k : Nat, acc = (k : Int) ∧
      (l0.get? k).map (·.isKeyframe) = some true) →
    (cutScan true su eu l i acc).1 ≠ -1 →
    ∃ k : Nat, (cutScan true su eu l i acc).1 = (k : Int) ∧
      (l0.get? k).map (·.isKeyframe) = some true := by
  induction l with
  | nil => intro i acc l0 _ hacc h; exact hacc h
  | cons s rest ih =>
    intro i acc l0 hcompat hacc
    have hGood2 : (if s.time ≤ su then (if s.isKeyframe then (i : Int) else acc) else acc) ≠ -1 →
        ∃ k : Nat, (if s.time ≤ su then (if s.isKeyframe then (i : Int) else acc) else acc) = (k : Int) ∧
          (l0.get? k).map (·.isKeyframe) = some true := by
      by_cases h1 : s.time ≤ su
      · by_cases h2 : s.isKeyframe
        · intro _
          refine ⟨i, by simp [h1, h2], ?_⟩
          have hc := hcompat 0 (by simp)
          simp only [Nat.add_zero, List.get?_cons_zero] at hc
          rw [hc]
          simp [h2]
        · simpa [h1, h2] using hacc
      · simpa [h1] using hacc
    have hred : cutScan true su eu (s :: rest) i acc =
        (if s.time ≥ eu then
          ((if s.time ≤ su then (if s.isKeyframe then (i : Int) else acc) else acc), (i : Int))
        else cutScan true su eu rest (i + 1)
          (if s.time ≤ su then (if s.isKeyframe then (i : Int) else acc) else acc)) := by
      simp [cutScan]
    rw [hred]
    by_cases hend : s.time ≥ eu
    · rw [if_pos hend]
      exact hGood2
    · rw [if_neg hend]
      have hcompat2 : ∀ m : Nat, m < rest.length → l0.get? (i + 1 + m) = rest.get? m := by
        intro m hm
        have := hcompat (m + 1) (by simpa using Nat.succ_lt_succ hm)
        simpa [Nat.add_comm, Nat.add_assoc, Nat.add_left_comm] using this
      exact ih (i + 1)
        (if s.time ≤ su then (if s.isKeyframe then (i : Int) else acc) else acc)
        l0 hcompat2 hGood2

/-- The first video track of the C4 counterexample: its only sample is
not a keyframe, and no keyframe lies at or before the cut start, so the
fallback start index 0 is used. -/
def c4Track : Track :=
  Track.mk 1 trackTypeVideo 600 40 [Sample.mk 1 false 0 10 0 40]
    [] [] none [] 0 0 0 [] "" [] 0

unseal Rat.mul Rat.sub in
/-- Counterexample to C4 as stated: cutting `c4Track` (a video track that
survives the cut) leaves a first sample with `is_keyframe = false` — the
fallback start index 0 does not guarantee a keyframe. -/
theorem keyframe_start_snap_counterexample :
    ((cutWithReport [c4Track] 0 0).1.map (·.type)) = [trackTypeVideo] ∧
    ((cutWithReport [c4Track] 0 0).1.map fun t => t.samples.map (·.isKeyframe)) =
      [[false]] := by
  exact ⟨by decide, by decide⟩

/-- C4 (corrected).  For every video track that survives the cut, if the
start-snap scan found a keyframe with decode time at most `start_units`
(i.e. returned an index other than the −1 sentinel, so the fallback
start index 0 was not used), then the first sample of the narrowed track
has `is_keyframe = true`. -/
theorem keyframe_start_snap (t : Track) (q1 q2 : ℚ) (p : Track × CutReport)
    (hv : t.type = trackTypeVideo)
    (hscan : (cutScanOf t q1 q2).1 ≠ -1)
    (h : cutTrack t q1 q2 = some p) :
    (p.1.samples.map (·.isKeyframe)).head? = some true := by
  have hb : (t.type == trackTypeVideo) = true := by simp [hv]
  have hsc : cutScanOf t q1 q2 =
      cutScan true (cutUnits t q1) (cutUnits t q2) t.samples 0 (-1) := by
    rw [cutScanOf, hb]
  obtain ⟨k, hk, hkf⟩ := cutScan_start_video (cutUnits t q1) (cutUnits t q2)
    t.samples 0 (-1) t.samples (fun m _ => by simp) (fun hc => absurd rfl hc)
    (by rw [← hsc]; exact hscan)
  have hstart : cutStartIdx t q1 q2 = (k : Int) := by
    rw [cutStartIdx, hsc, hk, if_neg (by omega)]
  by_cases hguard : cutStartIdx t q1 q2 > cutEndIdx t q1 q2
  · simp only [cutTrack, if_pos hguard] at h
    exact absurd h (by simp)
  · simp only [cutTrack, if_neg hguard] at h
    have hps : p.1.samples =
        (t.samples.drop ((cutStartIdx t q1 q2).toNat)).take
          ((cutEndIdx t q1 q2).toNat + 1 - (cutStartIdx t q1 q2).toNat) := by
      rw [← Option.some.inj h]
    have hklt : k < t.samples.length := by
      by_contra hge
      rw [List.get?_eq_none.2 (by omega)] at hkf
      simp at hkf
    have hle : cutStartIdx t q1 q2 ≤ cutEndIdx t q1 q2 := by omega
    have htake : 0 < (cutEndIdx t q1 q2).toNat + 1 - (cutStartIdx t q1 q2).toNat := by
      rw [hstart] at hle ⊢
      omega
    rw [List.head?_map, hps, head?_take_pos _ _ htake, head?_drop_eq_get?, hstart]
    simpa using hkf

/-- A video track whose first sample is a keyframe at time 0: the scan
finds it, so the amended C4 applies. -/
def c4wTrack : Track :=
  Track.mk 1 trackTypeVideo 600 40 [Sample.mk 1 true 0 10 0 40]
    [] [] none [] 0 0 0 [] "" [] 0

unseal Rat.mul Rat.sub in
/-- Witness for the amended C4 at a concrete input where every
hypothesis holds. -/
theorem keyframe_start_snap_witness :
    ((cutTrack c4wTrack 0 1).map fun p => (p.1.samples.map (·.isKeyframe)).head?) =
      some (some true) := by
  have h : cutTrack c4wTrack 0 1 =
      some ({ c4wTrack with
                samples := [Sample.mk 1 true 0 10 0 40], ctsOffsets := [] },
            CutReport.mk trackTypeVideo 0 0 1 0 0 (-1000) 1) := by decide
  rw [h]
  simp only [Option.map_some']
  exact congrArg some (keyframe_start_snap c4wTrack 0 1 _ (by decide) (by decide) h)

/-! ## Box-tree probe (`FastProbe` / `parseAtoms`, claims C5 and C6) -/

/-- `ContainerAtoms` from the probe source: the atom types parsed
recursively.  Note: `edts` is not in the map. -/
def ContainerAtoms (typ : String) : Bool :=
  typ == "moov" || typ == "trak" || typ == "mdia" || typ == "minf" ||
    typ == "dinf" || typ == "stbl" || typ == "mvex"

/-- `Atom` from the probe source. -/
inductive Atom where
  | mk (offset size : Int) (type : String) (children : List Atom)

def Atom.offset : Atom → Int
  | .mk o _ _ _ => o

def Atom.size : Atom → Int
  | .mk _ s _ _ => s

def Atom.type : Atom → String
  | .mk _ _ t _ => t

def Atom.children : Atom → List Atom
  | .mk _ _ _ c => c

/-- Result of `file.Seek(off, 0)` followed by one `file.Read` into an
`n`-byte zeroed buffer: a negative seek errs; a read at or past EOF
returns `io.EOF`; otherwise the available bytes are read and the rest of
the buffer stays zero (Go's `Read` returns a short count without error). -/
inductive ReadRes where
  | seekErr
  | eof
  | ok (bytes : List Nat)

def readAt (file : List Nat) (off : Int) (n : Nat) : ReadRes :=
  if off < 0 then .seekErr
  else if file.length ≤ off.toNat then .eof
  else .ok ((file.drop off.toNat).take n ++
    List.replicate (n - (file.length - off.toNat)) 0)

/-- The number of bytes the header `Read` consumed (the file cursor then
sits right after them, where the extended-size `Read` starts). -/
def bytesReadAt (file : List Nat) (off : Int) (n : Nat) : Nat :=
  min n (file.length - off.toNat)

/-- `parseAtoms` from the probe source, fuelled (the Go loop can diverge
on adversarial sizes; every claim below is settled at fuel large enough
that the model runs the Go control flow to completion).  Faithfully
mirrors the source, including the `if size == 1` header-size check being
performed after `size` has already been replaced by the 64-bit extended
size. -/
def parseAtomsLoop (file : List Nat) : Nat → Int → Int → Option (List Atom)
  | 0, _, _ => none
  | fuel + 1, offset, endO =>
    if offset < endO then
      match readAt file offset 8 with
      | .seekErr => none
      | .eof => some []
      | .ok header =>
        let size0 : Int := (beU32 (header.take 4) : Int)
        let typ := strOfBytes (header.drop 4)
        let step : Option Int :=
          if size0 = 1 then
            match readAt file (offset + (bytesReadAt file offset 8 : Int)) 8 with
            | .ok ext => some (int64ofUint64 (beU64 ext))
            | _ => none
          else some size0
        match step with
        | none => none
        | some size1 =>
          let size2 := if size1 = 0 then endO - offset else size1
          match (if ContainerAtoms typ then
                  parseAtomsLoop file fuel
                    (offset + (if size2 = 1 then 16 else 8)) (offset + size2)
                 else some []) with
          | none => none
          | some children =>
            match parseAtomsLoop file fuel (offset + size2) endO with
            | none => none
            | some rest => some (Atom.mk offset size2 typ children :: rest)
    else some []

/-- `FastProbe` from the probe source: parse the whole file. -/
def FastProbe (file : List Nat) : Option (List Atom) :=
  parseAtomsLoop file (file.length + 2) 0 (file.length : Int)

/-- Big-endian 8-byte encoding (for constructing probe inputs). -/
def beBytes64 (v : Nat) : List Nat :=
  beBytes32 (v / 4294967296 % 4294967296) ++ beBytes32 (v % 4294967296)

/-- A top-level `edts` box (size 24) containing an `elst` box (size 16). -/
def c5File : List Nat :=
  writeU32 24 ++ strBytes "edts" ++ writeU32 16 ++ strBytes "elst" ++
    List.replicate 8 0

/-- C5 (code_bug).  The probe does not recognize `edts` as a container:
`ContainerAtoms` (unlike the specified container set, which it otherwise
matches) lacks `edts`, so a parsed `edts` box gets no children even when
an `elst` box sits in its payload — the `edts/elst` lookup in
`parseTrack` can never find an `elst` child. -/
theorem edts_not_container :
    ContainerAtoms "edts" = false ∧
    ContainerAtoms "moov" = true ∧ ContainerAtoms "trak" = true ∧
    ContainerAtoms "mdia" = true ∧ ContainerAtoms "minf" = true ∧
    ContainerAtoms "dinf" = true ∧ ContainerAtoms "stbl" = true ∧
    ContainerAtoms "mvex" = true ∧
    FastProbe c5File = some [Atom.mk 0 24 "edts" []] :=
  ⟨rfl, rfl, rfl, rfl, rfl, rfl, rfl, rfl, rfl⟩

/-- A `moov` box with 32-bit size field 1 and 64-bit extended size 32,
whose payload (per the 16-byte extended header) holds a `free` box of
size 16 starting at offset 16. -/
def c6File : List Nat :=
  writeU32 1 ++ strBytes "moov" ++ beBytes64 32 ++
    (writeU32 16 ++ strBytes "free" ++ List.replicate 8 0)

/-- C6 (code_bug).  For a container with 32-bit size field 1 the probe
reads the 64-bit extended size, but then derives the header length from
the already-replaced `size` (the `if size == 1` check can no longer
fire), so the children are parsed from offset + 8 — the 8 extended-size
bytes are misread as a child header (here: a bogus zero-size child at
offset 8 spanning to the end of the box) instead of parsing the real
child at offset + 16. -/
theorem extended_size_header_bug :
    FastProbe c6File =
      some [Atom.mk 0 32 "moov"
        [Atom.mk 8 24 (strOfBytes [0, 0, 0, 32]) []]] ∧
    ((FastProbe c6File).map fun l =>
      (l.map fun a => a.children.map Atom.offset)) = some [[8]] :=
  ⟨rfl, rfl⟩

/-! ## Claim C8: codec tag extraction guard -/

/-- The codec-detection step at the end of `parseTrack`:
`if len(tr.Stsd) >= 12 { tr.CodecTag = string(tr.Stsd[12:16]) }`.
The result is the `CodecTag` value (`""` when the guard fails, the Go
zero value); `none` models the runtime panic of the slice expression
`Stsd[12:16]`, which Go raises whenever `len(Stsd) < 16`. -/
def codecDetect (stsd : List Nat) : Option String :=
  if 12 ≤ stsd.length then
    if 16 ≤ stsd.length then some (strOfBytes ((stsd.drop 12).take 4))
    else none
  else some ""

/-- C8 (code_bug).  The guard checks `len >= 12` but the slice needs
`len >= 16`: payload lengths 12 through 15 make track parsing panic
(reading bytes [12..16) out of range) instead of completing; lengths
below 12 complete with an empty tag, and only lengths ≥ 16 set the tag
from bytes [12..16). -/
theorem codec_tag_guard_bug :
    codecDetect (List.replicate 12 0) = none ∧
    codecDetect (List.replicate 13 0) = none ∧
    codecDetect (List.replicate 14 0) = none ∧
    codecDetect (List.replicate 15 0) = none ∧
    codecDetect (List.replicate 11 0) = some "" ∧
    codecDetect (List.replicate 16 97) = some "aaaa" :=
  ⟨rfl, rfl, rfl, rfl, rfl, rfl⟩

/-! ## Sample-table flattening (`MapSamples`, claim C10) -/

/-- An `stts` entry as parsed by `ParseStts`. -/
structure SttsEntry where
  count : Nat
  duration : Nat
deriving DecidableEq, Repr, Inhabited

/-- An `stsc` entry as parsed by `ParseStsc`. -/
structure StscEntry where
  firstChunk : Nat
  samplesPerChunk : Nat
  sampleDescID : Nat
deriving DecidableEq, Repr, Inhabited

/-- The inner `for i := 0; i < int(entry.Count); i++` loop of the
time-filling phase of `MapSamples`: state is (samples, currentSample,
currentTime); each in-range step sets `Time`, `Duration` and the 1-based
`ID` and advances the counters.  Out-of-range steps change nothing. -/
def fillTimesEntry (dur : Nat) : Nat → List Sample × Nat × Int → List Sample × Nat × Int
  | 0, st => st
  | n + 1, (l, idx, t) =>
    if idx < l.length then
      fillTimesEntry dur n
        (listModify l idx (fun s =>
          Sample.mk ((idx : Int) + 1) s.isKeyframe s.offset s.size t (dur : Int)),
         idx + 1, t + (dur : Int))
    else fillTimesEntry dur n (l, idx, t)

/-- The time-filling phase of `MapSamples` over all `stts` entries. -/
def fillTimes (samples : List Sample) (stts : List SttsEntry) : List Sample :=
  (stts.foldl (fun st e => fillTimesEntry e.duration e.count st) (samples, 0, 0)).1

/-- The size-filling phase of `MapSamples`: a fixed size applies to every
sample, otherwise the explicit `stsz` entries apply index-wise up to the
shorter of the two lists. -/
def fillSizes (samples : List Sample) (fixedSize : Nat) (stsz : List Nat) : List Sample :=
  if fixedSize ≠ 0 then
    samples.map fun s => { s with size := (fixedSize : Int) }
  else
    samples.mapIdx fun i s =>
      if i < stsz.length then { s with size := (stsz.getD i 0 : Int) } else s

/-- The `samplesPerChunk` search over `stsc` (`if chunkIndex >=
entry.FirstChunk { samplesPerChunk = entry.SamplesPerChunk } else break`). -/
def findSPCGo (chunkIndex : Nat) : List StscEntry → Nat → Nat
  | [], acc => acc
  | e :: rest, acc =>
    if chunkIndex ≥ e.firstChunk then findSPCGo chunkIndex rest e.samplesPerChunk
    else acc

def findSPC (stsc : List StscEntry) (chunkIndex : Nat) : Nat :=
  findSPCGo chunkIndex stsc 0

/-- The inner per-chunk loop of the offset walk of `MapSamples`: for each
of the chunk's `samplesPerChunk` slots, an in-range step records the
running offset and the keyframe flag (`len(stss) == 0 ||
isKeyframe[id]`), advances the offset by the sample's size and moves to
the next sample. -/
def fillChunkN (kfAll : Bool) (kf : Int → Bool) :
    Nat → List Sample → Nat → Int → List Sample × Nat
  | 0, l, idx, _ => (l, idx)
  | j + 1, l, idx, off =>
    if h : idx < l.length then
      fillChunkN kfAll kf j
        (listModify l idx (fun s0 =>
          Sample.mk s0.id (kfAll || kf s0.id) off s0.size s0.time s0.duration))
        (idx + 1) (off + (l.get ⟨idx, h⟩).size)
    else fillChunkN kfAll kf j l idx off

/-- The chunk walk of `MapSamples` over all `stco` entries. -/
def fillOffsets (samples : List Sample) (stss : List Nat) (stco : List Nat)
    (stsc : List StscEntry) : List Sample :=
  let kf : Int → Bool := fun id => stss.any fun x => (x : Int) == id
  (stco.enum.foldl
    (fun st p => fillChunkN (stss.length == 0) kf (findSPC stsc (p.1 + 1)) st.1 st.2 (p.2 : Int))
    (samples, 0)).1

def sttsTotal (stts : List SttsEntry) : Nat := (stts.map (·.count)).sum

/-- `MapSamples` from parsed tables onward: `stssOpt = none` models an
absent `stss` atom (Go `var stss []uint32` stays nil), `some entries`
a present one that parsed to `entries`.  The sample count comes from
`stts` under a fixed size and from the `stsz` list otherwise; samples
start as Go zero values, then times, sizes and offsets/keyframes are
filled in. -/
def mapSamples (stssOpt : Option (List Nat)) (stts : List SttsEntry)
    (stco : List Nat) (fixedSize : Nat) (stsz : List Nat)
    (stsc : List StscEntry) : List Sample :=
  let stss := stssOpt.getD []
  let numSamples := if fixedSize ≠ 0 then sttsTotal stts else stsz.length
  let s0 := List.replicate numSamples (Sample.mk 0 false 0 0 0 0)
  let s1 := fillTimes s0 stts
  let s2 := fillSizes s1 fixedSize stsz
  fillOffsets s2 stss stco stsc

/-- The number of samples the chunk walk reaches, over a sample array of
length `n`: each chunk advances the sample counter by its
`samplesPerChunk`, saturating at `n`. -/
def walkedCount (stco : List Nat) (stsc : List StscEntry) (n : Nat) : Nat :=
  stco.enum.foldl (fun c p => min (c + findSPC stsc (p.1 + 1)) n) 0

theorem length_listModify (l : List α) (i : Nat) (f : α → α) :
    (listModify l i f).length = l.length := by
  induction l generalizing i with
  | nil => rfl
  | cons x xs ih =>
    match i with
    | 0 => rfl
    | m + 1 => simp [listModify, ih m]

theorem get?_listModify_ne (l : List α) (i m : Nat) (f : α → α) (h : m ≠ i) :
    (listModify l i f).get? m = l.get? m := by
  induction l generalizing i m with
  | nil => rfl
  | cons x xs ih =>
    match i, m with
    | 0, 0 => exact absurd rfl h
    | 0, k + 1 => rfl
    | n + 1, 0 => rfl
    | n + 1, k + 1 => simpa [listModify] using ih n k (by omega)

theorem get?_listModify_self (l : List α) (i : Nat) (f : α → α) :
    (listModify l i f).get? i = (l.get? i).map f := by
  induction l generalizing i with
  | nil => rfl
  | cons x xs ih =>
    match i with
    | 0 => rfl
    | m + 1 => simpa [listModify] using ih m

theorem length_fillTimesEntry (dur : Nat) (n : Nat) :
    ∀ st : List Sample × Nat × Int, ((fillTimesEntry dur n st).1).length = st.1.length := by
  induction n with
  | zero => intro st; rfl
  | succ n ih =>
    intro ⟨l, idx, t⟩
    by_cases h : idx < l.length
    · simp only [fillTimesEntry, if_pos h]
      rw [ih]
      exact length_listModify l idx _
    · simp only [fillTimesEntry, if_neg h]
      exact ih (l, idx, t)

theorem length_fillTimesFold (stts : List SttsEntry) :
    ∀ st : List Sample × Nat × Int,
      (((stts.foldl (fun st e => fillTimesEntry e.duration e.count st) st)).1).length =
        st.1.length := by
  induction stts with
  | nil => intro st; rfl
  | cons e rest ih =>
    intro st
    simp only [List.foldl_cons]
    rw [ih, length_fillTimesEntry]

theorem length_fillTimes (samples : List Sample) (stts : List SttsEntry) :
    (fillTimes samples stts).length = samples.length :=
  length_fillTimesFold stts (samples, 0, 0)

theorem length_fillSizes (samples : List Sample) (fixedSize : Nat) (stsz : List Nat) :
    (fillSizes samples fixedSize stsz).length = samples.length := by
  by_cases h : fixedSize ≠ 0 <;> simp [fillSizes, h]

/-- The inner chunk loop with every written keyframe flag true: it keeps
the array length, advances the counter to `min (idx + j) len`, and every
sample below the final counter carries `is_keyframe = true`. -/
theorem fillChunkN_true (kf : Int → Bool) (j : Nat) :
    ∀ (l : List Sample) (idx : Nat) (off : Int),
    idx ≤ l.length →
    (∀ m, m < idx → ((l.get? m).map (·.isKeyframe)) = some true) →
    (fillChunkN true kf j l idx off).1.length = l.length ∧
    (fillChunkN true kf j l idx off).2 = min (idx + j) l.length ∧
    (∀ m, m < (fillChunkN true kf j l idx off).2 →
      (((fillChunkN true kf j l idx off).1.get? m).map (·.isKeyframe)) = some true) := by
  induction j with
  | zero =>
    intro l idx off hle hP
    exact ⟨rfl, by simp [fillChunkN]; omega, hP⟩
  | succ j ih =>
    intro l idx off hle hP
    by_cases h : idx < l.length
    · have hstep : fillChunkN true kf (j + 1) l idx off =
          fillChunkN true kf j
            (listModify l idx (fun s0 =>
              Sample.mk s0.id (true || kf s0.id) off s0.size s0.time s0.duration))
            (idx + 1) (off + (l.get ⟨idx, h⟩).size) := by
        simp [fillChunkN, h]
      have hP2 : ∀ m, m < idx + 1 →
          (((listModify l idx (fun s0 =>
            Sample.mk s0.id (true || kf s0.id) off s0.size s0.time s0.duration)).get? m).map
              (·.isKeyframe)) = some true := by
        intro m hm
        by_cases hmi : m = idx
        · subst hmi
          rw [get?_listModify_self, List.get?_eq_get h]
          simp
        · rw [get?_listModify_ne _ _ _ _ hmi]
          exact hP m (by omega)
      have hle2 : idx + 1 ≤ (listModify l idx (fun s0 =>
          Sample.mk s0.id (true || kf s0.id) off s0.size s0.time s0.duration)).length := by
        rw [length_listModify]; omega
      obtain ⟨g1, g2, g3⟩ := ih _ (idx + 1) (off + (l.get ⟨idx, h⟩).size) hle2 hP2
      rw [hstep]
      rw [length_listModify] at g1 g2
      exact ⟨g1, by rw [g2]; omega, g3⟩
    · have hstep : fillChunkN true kf (j + 1) l idx off = fillChunkN true kf j l idx off := by
        simp [fillChunkN, h]
      obtain ⟨g1, g2, g3⟩ := ih l idx off hle hP
      rw [hstep]
      exact ⟨g1, by rw [g2]; omega, g3⟩

/-- The chunk walk with every written keyframe flag true (the `stss`
list empty), over any chunk list: length is kept, the final counter is
the saturating per-chunk sum, and every reached sample is a keyframe. -/
theorem foldChunks_true (kf : Int → Bool) (stsc : List StscEntry)
    (ps : List (Nat × Nat)) :
    ∀ (l : List Sample) (idx : Nat),
    idx ≤ l.length →
    (∀ m, m < idx → ((l.get? m).map (·.isKeyframe)) = some true) →
    (ps.foldl (fun st p =>
      fillChunkN true kf (findSPC stsc (p.1 + 1)) st.1 st.2 (p.2 : Int)) (l, idx)).1.length =
        l.length ∧
    (ps.foldl (fun st p =>
      fillChunkN true kf (findSPC stsc (p.1 + 1)) st.1 st.2 (p.2 : Int)) (l, idx)).2 =
      ps.foldl (fun c p => min (c + findSPC stsc (p.1 + 1)) l.length) idx ∧
    (∀ m, m < (ps.foldl (fun st p =>
        fillChunkN true kf (findSPC stsc (p.1 + 1)) st.1 st.2 (p.2 : Int)) (l, idx)).2 →
      (((ps.foldl (fun st p =>
        fillChunkN true kf (findSPC stsc (p.1 + 1)) st.1 st.2 (p.2 : Int)) (l, idx)).1.get? m).map
          (·.isKeyframe)) = some true) := by
  induction ps with
  | nil => intro l idx hle hP; exact ⟨rfl, rfl, hP⟩
  | cons p ps ih =>
    intro l idx hle hP
    obtain ⟨h1, h2, h3⟩ := fillChunkN_true kf (findSPC stsc (p.1 + 1)) l idx
      ((p.2 : Nat) : Int) hle hP
    have hle2 : (fillChunkN true kf (findSPC stsc (p.1 + 1)) l idx ((p.2 : Nat) : Int)).2 ≤
        (fillChunkN true kf (findSPC stsc (p.1 + 1)) l idx ((p.2 : Nat) : Int)).1.length := by
      rw [h1, h2]; omega
    obtain ⟨g1, g2, g3⟩ := ih
      (fillChunkN true kf (findSPC stsc (p.1 + 1)) l idx ((p.2 : Nat) : Int)).1
      (fillChunkN true kf (findSPC stsc (p.1 + 1)) l idx ((p.2 : Nat) : Int)).2 hle2 h3
    rw [h1] at g1 g2
    refine ⟨g1, ?_, g3⟩
    simp only [List.foldl_cons]
    rw [g2, h2]

/-- C10 (confirmed).  A present-but-empty sync-sample table is treated
exactly like an absent one: `MapSamples` produces the same sample array,
and every sample reached by the chunk walk (all indices below the
saturating per-chunk count) is marked `is_keyframe = true` rather than
no sample being a keyframe. -/
theorem stss_empty_like_absent (stts : List SttsEntry) (stco : List Nat)
    (fixedSize : Nat) (stsz : List Nat) (stsc : List StscEntry) :
    mapSamples (some []) stts stco fixedSize stsz stsc =
      mapSamples none stts stco fixedSize stsz stsc ∧
    ∀ i : Nat,
      i < walkedCount stco stsc (if fixedSize ≠ 0 then sttsTotal stts else stsz.length) →
      (((mapSamples (some []) stts stco fixedSize stsz stsc).get? i).map
        (·.isKeyframe)) = some true := by
  constructor
  · rfl
  · intro i hi
    have hlen : (fillSizes (fillTimes (List.replicate
        (if fixedSize ≠ 0 then sttsTotal stts else stsz.length)
        (Sample.mk 0 false 0 0 0 0)) stts) fixedSize stsz).length =
        (if fixedSize ≠ 0 then sttsTotal stts else stsz.length) := by
      rw [length_fillSizes, length_fillTimes, List.length_replicate]
    obtain ⟨g1, g2, g3⟩ := foldChunks_true
      (fun id => ([] : List Nat).any fun x => (x : Int) == id) stsc stco.enum
      (fillSizes (fillTimes (List.replicate
        (if fixedSize ≠ 0 then sttsTotal stts else stsz.length)
        (Sample.mk 0 false 0 0 0 0)) stts) fixedSize stsz) 0
      (by omega) (by intro m hm; omega)
    have hwalk : walkedCount stco stsc
        (if fixedSize ≠ 0 then sttsTotal stts else stsz.length) =
        stco.enum.foldl (fun c p => min (c + findSPC stsc (p.1 + 1))
          (fillSizes (fillTimes (List.replicate
            (if fixedSize ≠ 0 then sttsTotal stts else stsz.length)
            (Sample.mk 0 false 0 0 0 0)) stts) fixedSize stsz).length) 0 := by
      rw [hlen, walkedCount]
    exact g3 i (by rw [g2, ← hwalk]; exact hi)

/-- Witness for C10: two fixed-size samples over two one-sample chunks
with an empty `stss`; the first reached sample is a keyframe, and the
empty and absent tables agree. -/
theorem stss_empty_like_absent_witness :
    (((mapSamples (some []) [SttsEntry.mk 2 40] [0, 100] 10 []
        [StscEntry.mk 1 1 1]).get? 0).map (·.isKeyframe)) = some true :=
  (stss_empty_like_absent [SttsEntry.mk 2 40] [0, 100] 10 [] [StscEntry.mk 1 1 1]).2
    0 (by decide)

end Cromedia
